import Mathlib

/-!
# Verification of LinuxPthreadExtensions against its specification

Shallow embedding of the library's components, translated from the C sources
(`sem.c`, `pcQueue.c`, `mempool.c`, `treemap.c`, `threadPool.c`), together
with theorems settling the specification claims.

Conventions of the embedding:
* A blocking wait that can never be satisfied in a sequential (single-thread)
  run is modelled as `none` / a distinguished outcome: with a single thread no
  other thread can change the state, so a `pthread_cond_wait` never returns
  and a `pthread_cond_timedwait` eventually elapses.
* C `long` / `int` values are modelled as `Int` (no claim exercises overflow).
* Pointers are byte addresses (`Nat`), with `0` playing the role of `NULL`.
* A read or write outside an arena's block — undefined behaviour in C —
  surfaces as an explicit fault.
-/

namespace LPX

/-! ## Counting semaphore (`sem.c`)

The state is the counter and the `initialized` marker; the mutex and the
condition variable have no sequential content of their own. -/

def SEMAPHORE_SUCCESS : Int := 0

def SEMAPHORE_FAILURE : Int := -1

def SEMAPHORE_TIMEOUT : Int := -2

/-- Semaphore state: counter value plus the marker set by `lpx_sem_init`. -/
structure Sem where
  value : Int
  inited : Bool
deriving DecidableEq, Repr

/-- `lpx_sem_init` (sem.c:33): rejects `maxValue <= 0`, otherwise starts the
semaphore fully available at `maxValue`. -/
def lpx_sem_init (maxValue : Int) : Option Sem :=
  if maxValue ≤ 0 then none
  else some { value := maxValue, inited := true }

/-- `lpx_sem_up_multiple` (sem.c:168): adds `value` to the counter; fails only
on an uninitialized semaphore. -/
def lpx_sem_up_multiple (s : Sem) (value : Int) : Int × Sem :=
  if s.inited = false then (SEMAPHORE_FAILURE, s)
  else (SEMAPHORE_SUCCESS, { s with value := s.value + value })

/-- `lpx_sem_down_multiple` (sem.c:129), sequential reading: waits while the
counter is below `value`; in a single-thread run such a wait never ends, which
is modelled as `none`. -/
def lpx_sem_down_multiple (s : Sem) (value : Int) : Option (Int × Sem) :=
  if s.inited = false then some (SEMAPHORE_FAILURE, s)
  else if s.value < value then none
  else some (SEMAPHORE_SUCCESS, { s with value := s.value - value })

/-- `lpx_sem_timed_down` (sem.c:223), sequential reading: rejects
`timeoutMillis <= 0`; if the counter is below `value` the
`pthread_cond_timedwait` loop elapses (no other thread can raise the counter)
and the call returns `SEMAPHORE_TIMEOUT` with the counter untouched. -/
def lpx_sem_timed_down (s : Sem) (value timeoutMillis : Int) : Int × Sem :=
  if s.inited = false then (SEMAPHORE_FAILURE, s)
  else if timeoutMillis ≤ 0 then (SEMAPHORE_FAILURE, s)
  else if s.value < value then (SEMAPHORE_TIMEOUT, s)
  else (SEMAPHORE_SUCCESS, { s with value := s.value - value })

/-! ## Bounded blocking queue (`pcQueue.c`)

The linked list guarded by `qMutex` is modelled as a Lean list with the head
of the list at the queue's head (`dequeue` pops the head, `enqueue` appends at
the tail, exactly as the pointer splicing at pcQueue.c:266-275 and 307-311).
The node pool of `lpx_pcq_init` contributes its free-cell count. -/

def PCQ_SUCCESS : Int := 0

def PCQ_FAILURE : Int := -1

def PCQ_TIMEOUT : Int := -2

/-- Bounded queue state: capacity, the two semaphores, the node list (head
first) and the number of free cells in the node pool. -/
structure PCQ where
  maxSize : Nat
  nqSem : Sem
  dqSem : Sem
  items : List Int
  poolFree : Nat
deriving DecidableEq, Repr

/-- `lpx_pcq_init` (pcQueue.c:33): `nqSem` starts at `queueDepth`, `dqSem` is
initialized to `queueDepth` and then lowered by `queueDepth`, the node pool
holds `queueDepth` free cells, the list is empty. -/
def lpx_pcq_init (queueDepth : Int) : Option PCQ :=
  if queueDepth < 1 then none
  else
    match lpx_sem_init queueDepth with
    | none => none
    | some nq =>
      match lpx_sem_init queueDepth with
      | none => none
      | some dq0 =>
        match lpx_sem_down_multiple dq0 queueDepth with
        | none => none
        | some (_, dq) =>
          some { maxSize := queueDepth.toNat, nqSem := nq, dqSem := dq,
                 items := [], poolFree := queueDepth.toNat }

/-- The static `enqueue` helper (pcQueue.c:246): takes a cell from the node
pool (failing when the pool is empty) and splices the node onto the tail. -/
def pcq_enqueue_node (q : PCQ) (value : Int) : Int × PCQ :=
  if q.poolFree = 0 then (PCQ_FAILURE, q)
  else (PCQ_SUCCESS,
    { q with items := q.items ++ [value], poolFree := q.poolFree - 1 })

/-- The static `dequeue` helper (pcQueue.c:292): detaches the head node,
returns its data and releases the cell back to the pool. -/
def pcq_dequeue_node (q : PCQ) : Int × Option Int × PCQ :=
  match q.items with
  | [] => (PCQ_FAILURE, none, q)
  | x :: rest =>
    (PCQ_SUCCESS, some x, { q with items := rest, poolFree := q.poolFree + 1 })

/-- `lpx_pcq_enqueue` (pcQueue.c:86): down on `nqSem` (blocking — `none` when
it can never succeed sequentially), splice, up on `dqSem`; on a splice failure
the slot semaphore is restored before returning failure. -/
def lpx_pcq_enqueue (q : PCQ) (data : Int) : Option (Int × PCQ) :=
  match lpx_sem_down_multiple q.nqSem 1 with
  | none => none
  | some (r, nq') =>
    if r ≠ 0 then some (PCQ_FAILURE, q)
    else
      let q1 := { q with nqSem := nq' }
      let (re, q2) := pcq_enqueue_node q1 data
      if re ≠ 0 then
        some (PCQ_FAILURE, { q2 with nqSem := (lpx_sem_up_multiple q2.nqSem 1).2 })
      else
        let (ru, dq') := lpx_sem_up_multiple q2.dqSem 1
        if ru ≠ 0 then some (PCQ_FAILURE, { q2 with dqSem := dq' })
        else some (PCQ_SUCCESS, { q2 with dqSem := dq' })

/-- `lpx_pcq_dequeue` (pcQueue.c:118): mirror image of the enqueue path. -/
def lpx_pcq_dequeue (q : PCQ) : Option (Int × Option Int × PCQ) :=
  match lpx_sem_down_multiple q.dqSem 1 with
  | none => none
  | some (r, dq') =>
    if r ≠ 0 then some (PCQ_FAILURE, none, q)
    else
      let q1 := { q with dqSem := dq' }
      let (rd, v, q2) := pcq_dequeue_node q1
      if rd ≠ 0 then
        some (PCQ_FAILURE, none, { q2 with dqSem := (lpx_sem_up_multiple q2.dqSem 1).2 })
      else
        let (ru, nq') := lpx_sem_up_multiple q2.nqSem 1
        if ru ≠ 0 then some (PCQ_FAILURE, v, { q2 with nqSem := nq' })
        else some (PCQ_SUCCESS, v, { q2 with nqSem := nq' })

/-- `lpx_pcq_timed_enqueue` (pcQueue.c:153): timed down on `nqSem`, mapping
`SEMAPHORE_TIMEOUT` to `PCQ_TIMEOUT`; then the same splice/up tail as the
blocking enqueue. -/
def lpx_pcq_timed_enqueue (q : PCQ) (data : Int) (timeout : Int) : Int × PCQ :=
  let (r, nq') := lpx_sem_timed_down q.nqSem 1 timeout
  if r ≠ 0 then
    if r = SEMAPHORE_TIMEOUT then (PCQ_TIMEOUT, q) else (PCQ_FAILURE, q)
  else
    let q1 := { q with nqSem := nq' }
    let (re, q2) := pcq_enqueue_node q1 data
    if re ≠ 0 then
      (PCQ_FAILURE, { q2 with nqSem := (lpx_sem_up_multiple q2.nqSem 1).2 })
    else
      let (ru, dq') := lpx_sem_up_multiple q2.dqSem 1
      if ru ≠ 0 then (PCQ_FAILURE, { q2 with dqSem := dq' })
      else (PCQ_SUCCESS, { q2 with dqSem := dq' })

/-- One sequential step of a producer/consumer history: `true` consumes the
next input value with a blocking enqueue, `false` performs a blocking
dequeue. `none` marks a step that blocks forever or fails. -/
def pcqRun (q : PCQ) (ins : List Int) (ops : List Bool) (acc : List Int) :
    Option (PCQ × List Int) :=
  match ops with
  | [] => some (q, acc)
  | true :: rest =>
    match ins with
    | [] => none
    | v :: ins' =>
      match lpx_pcq_enqueue q v with
      | some (r, q') => if r = 0 then pcqRun q' ins' rest acc else none
      | none => none
  | false :: rest =>
    match lpx_pcq_dequeue q with
    | some (r, some v, q') => if r = 0 then pcqRun q' ins rest (acc ++ [v]) else none
    | _ => none

/-- Consistency of a queue state: the two semaphore counters and the pool
count agree with the list, as established by `lpx_pcq_init` and preserved by
every operation. -/
def PCQInv (q : PCQ) : Prop :=
  q.nqSem.inited = true ∧ q.dqSem.inited = true ∧
  q.items.length ≤ q.maxSize ∧
  q.nqSem.value = (q.maxSize : Int) - q.items.length ∧
  q.dqSem.value = (q.items.length : Int) ∧
  q.poolFree = q.maxSize - q.items.length

/-! ## Red/black tree shape (`treemap.c`)

The recursive routines of `treemap.c` that never follow parent pointers
(`assert_rb_valid`, the search loop of `lpx_treemap_get`) are embedded on an
inductive tree. Keys and values are the `unsigned long` of the API, modelled
as `Nat`. -/

def TREEMAP_SUCCESS : Int := 0

def TREEMAP_ERROR : Int := -1

/-- Node colour (`COLOR_RED` / `COLOR_BLACK`). -/
inductive Color where
  | red : Color
  | black : Color
deriving DecidableEq, Repr

/-- A red/black tree as a value: `nil` is the C `NULL` pointer. -/
inductive RBTree where
  | nil : RBTree
  | node (color : Color) (key : Nat) (value : Nat) (left right : RBTree) : RBTree
deriving DecidableEq, Repr

/-- `isRed` (treemap.c:152): `NULL` counts as not red. -/
def isRedT : RBTree → Bool
  | .node Color.red _ _ _ _ => true
  | _ => false

/-- `assert_rb_valid` (treemap.c:933), with the in/out `maxBlackCount`
threaded explicitly: returns `(retval, maxBlackCount)`. The black-depth
comparison happens only at nodes whose two children are both `NULL`, and the
recursion results are combined with C's `retval |= ...`. -/
def assert_rb_valid : RBTree → Int → Int → Int × Int
  | .nil, _, maxBlackCount => (0, maxBlackCount)
  | .node c _ _ l r, blackCount, maxBlackCount =>
    if c = Color.red ∧ (isRedT l = true ∨ isRedT r = true) then
      (TREEMAP_ERROR, maxBlackCount)
    else
      let bc := if c = Color.red then blackCount else blackCount + 1
      if l = RBTree.nil ∧ r = RBTree.nil then
        if maxBlackCount = -1 then (0, bc)
        else if maxBlackCount ≠ bc then (TREEMAP_ERROR, maxBlackCount)
        else (0, maxBlackCount)
      else
        let p1 := assert_rb_valid l bc maxBlackCount
        let p2 := assert_rb_valid r bc p1.2
        (Int.lor p1.1 p2.1, p2.2)

/-- `lpx_treemap_check_rb_conflicts` (treemap.c:978). -/
def lpx_treemap_check_rb_conflicts (t : RBTree) : Int :=
  match t with
  | .nil => TREEMAP_SUCCESS
  | _ => (assert_rb_valid t 0 (-1)).1

/-- The search loop of `lpx_treemap_get` (treemap.c:539-553): returns the C
return value together with what was stored through the output pointer
(`none` = the location was never written). -/
def lpx_treemap_get (t : RBTree) (key : Nat) : Int × Option Nat :=
  match t with
  | .nil => (TREEMAP_ERROR, none)
  | .node _ k v l r =>
    if k = key then (TREEMAP_SUCCESS, some v)
    else if key < k then lpx_treemap_get l key
    else lpx_treemap_get r key

/-- In-order key sequence of a tree. -/
def inorderKeys : RBTree → List Nat
  | .nil => []
  | .node _ k _ l r => inorderKeys l ++ k :: inorderKeys r

/-- Spec side: "no red node has a red child". -/
def noRedRedSpec : RBTree → Bool
  | .nil => true
  | .node c _ _ l r =>
    (!(c = Color.red && (isRedT l || isRedT r))) && noRedRedSpec l && noRedRedSpec r

/-- Spec side: the number of black nodes on every root-to-`NULL` path, when it
is the same on all of them ("black-depth is uniform"). -/
def blackHeightSpec : RBTree → Option Nat
  | .nil => some 0
  | .node c _ _ l r =>
    match blackHeightSpec l, blackHeightSpec r with
    | some a, some b =>
      if a = b then some (a + (if c = Color.black then 1 else 0)) else none
    | _, _ => none

/-- The root is not red (`NULL` counts as black). -/
def rootBlackSpec (t : RBTree) : Bool := !isRedT t

/-- Strictly ascending sequence. -/
def strictAscend : List Nat → Bool
  | [] => true
  | [_] => true
  | a :: b :: rest => decide (a < b) && strictAscend (b :: rest)

/-- Spec side: the conjunction of the four red/black invariants of §3 —
black root, no red-red edge, uniform black depth on every root-to-`NULL`
path, strictly ascending in-order keys. -/
def specRBValid (t : RBTree) : Bool :=
  rootBlackSpec t && noRedRedSpec t && (blackHeightSpec t).isSome &&
    strictAscend (inorderKeys t)

/-- The black counts the checker records at both-children-`NULL` nodes, in
traversal order, starting from running count `bc`. -/
def leafBlackCounts : RBTree → Int → List Int
  | .nil, _ => []
  | .node c _ _ l r, blackCount =>
    let bc := if c = Color.red then blackCount else blackCount + 1
    if l = RBTree.nil ∧ r = RBTree.nil then [bc]
    else leafBlackCounts l bc ++ leafBlackCounts r bc

/-- The `maxBlackCount` protocol of the checker as a fold: `-1` means unset,
the first leaf fixes the value, later leaves must match it. -/
def foldMax : Int → List Int → Option Int
  | m, [] => some m
  | m, x :: xs => if m = -1 then foldMax x xs else if m = x then foldMax m xs else none

/-! ## Variable-size arena (`mempool.c`)

The arena's block is a word-addressed memory: byte addresses relative to a
`base`, one `Int` per 8-byte word (`sizeof(long)`). A free span stores
`{size, prev, next}` in its first three words (`VPMD_*_OFFSET` 0/1/2); an
allocated span stores `{pool back-pointer, size}`. A read or write outside
the block — undefined behaviour in C — is an explicit `MemFault`, as is
running out of fuel on a list walk (the C loop not terminating). -/

def MEMPOOL_SUCCESS : Int := 0

def MEMPOOL_FAILURE : Int := -1

/-- The address of the `lpx_mempool_variable_t` struct itself, stored as the
back-pointer word of every allocated span. The struct lives outside the
block; its concrete address is irrelevant, any fixed value serves. -/
def poolStructAddr : Int := 1099511627776

/-- A fault of the memory model: an out-of-block access, or a free-list walk
that does not terminate. -/
inductive MemFault where
  | oob : MemFault
  | fuelOut : MemFault
deriving DecidableEq, Repr

/-- Arena state: block geometry, the `freeList` head pointer (0 = `NULL`)
and the block contents, one `Int` per word-aligned byte address. -/
structure Arena where
  base : Nat
  poolSize : Nat
  freeList : Nat
  mem : Nat → Int

/-- An address whose 8-byte word lies inside the arena's block. The C code
does not keep spans 8-aligned (sizes like `n + 40` are not multiples of the
word), so no alignment is demanded; `mem` is keyed by the start address of
each word, and no run examined here accesses overlapping words. -/
def okAddr (a : Arena) (p : Nat) : Bool :=
  decide (a.base ≤ p) && decide (p + 8 ≤ a.base + a.poolSize)

/-- Read the word at byte address `p`. -/
def readW (a : Arena) (p : Nat) : Except MemFault Int :=
  if okAddr a p then .ok (a.mem p) else .error .oob

/-- The arena with the word at `p` replaced by `v`. -/
def memUpd (a : Arena) (p : Nat) (v : Int) : Arena :=
  { a with mem := fun q => if q = p then v else a.mem q }

/-- The arena with its free-list head pointer replaced. -/
def setFreeList (a : Arena) (p : Nat) : Arena := { a with freeList := p }

/-- Write the word at byte address `p`. -/
def writeW (a : Arena) (p : Nat) (v : Int) : Except MemFault Arena :=
  if okAddr a p then .ok (memUpd a p v) else .error .oob

/-- `lpx_mempool_create_variable_pool_from_block` (mempool.c:293): the whole
block becomes the single free span `{size, NULL, NULL}`. Unwritten words of
the caller's block are modelled as 0. -/
def lpx_mempool_create_variable_pool_from_block (base size : Nat) : Option Arena :=
  if size ≤ 16 then none
  else some { base := base, poolSize := size, freeList := base,
              mem := fun p => if p = base then (size : Int) else 0 }

/-- The walk of `findFirstFit` (mempool.c:532): first node whose size word is
at least `size`; 0 when the list is exhausted. -/
def findFirstFitLoop (a : Arena) (size : Int) : Nat → Nat → Except MemFault Nat
  | _, 0 => .error .fuelOut
  | cur, fuel + 1 =>
    if cur = 0 then .ok 0
    else do
      let s ← readW a cur
      if size ≤ s then .ok cur
      else do
        let nxt ← readW a (cur + 16)
        findFirstFitLoop a size nxt.toNat fuel

/-- `findFirstFit` (mempool.c:532) starting at the free-list head. -/
def findFirstFit (a : Arena) (size : Int) (fuel : Nat) : Except MemFault Nat :=
  findFirstFitLoop a size a.freeList fuel

/-- `splitBlock` (mempool.c:560): returns
`(allocatedBlock, final requestSize, arena)`. If the remainder would be
smaller than `4·word` the whole span is taken and unlinked; otherwise the
span's size word is reduced in place and the tail is returned. -/
def splitBlock (a : Arena) (addr : Nat) (requestSize : Int) :
    Except MemFault (Nat × Int × Arena) := do
  let blockSize ← readW a addr
  let size := if blockSize - requestSize < 32 then blockSize else requestSize
  if blockSize = size then do
    let prev ← readW a (addr + 8)
    let next ← readW a (addr + 16)
    if prev ≠ 0 then do
      let a1 ← writeW a (prev.toNat + 16) next
      let a2 ← if next ≠ 0 then writeW a1 (next.toNat + 8) prev else pure a1
      pure (addr, size, a2)
    else do
      let a1 := setFreeList a next.toNat
      let a2 ← if next ≠ 0 then writeW a1 (next.toNat + 8) 0 else pure a1
      pure (addr, size, a2)
  else do
    let a1 ← writeW a addr (blockSize - size)
    pure (((addr : Int) + (blockSize - size)).toNat, size, a1)

/-- The size adjustment at the top of `lpx_mempool_variable_alloc`
(mempool.c:418-423): add the two-word header overhead, and if the result is
below `3·word` add another `3·word` "because this should be linkable back
into the list". -/
def adjustSize (size : Int) : Int :=
  let s := size + 16
  if s < 24 then s + 24 else s

/-- `lpx_mempool_variable_alloc` (mempool.c:401): adjust, first-fit, split,
then stamp the allocated header `{pool back-pointer, size}` and hand out the
address right after it. `none` is the C `NULL` return (no fit). -/
def lpx_mempool_variable_alloc (a : Arena) (size : Int) (fuel : Nat) :
    Except MemFault (Option (Nat × Arena)) := do
  let adjusted := adjustSize size
  let cand ← findFirstFit a adjusted fuel
  if cand = 0 then pure none
  else do
    let (blk, finalSize, a1) ← splitBlock a cand adjusted
    let a2 ← writeW a1 blk poolStructAddr
    let a3 ← writeW a2 (blk + 8) finalSize
    pure (some (blk + 16, a3))

/-- `insertAfter` (mempool.c:677). -/
def insertAfter (a : Arena) (prev blockToInsert : Nat) : Except MemFault Arena := do
  let next ← readW a (prev + 16)
  let a1 ← writeW a (prev + 16) (blockToInsert : Int)
  let a2 ← writeW a1 (blockToInsert + 8) (prev : Int)
  let a3 ← writeW a2 (blockToInsert + 16) next
  if next ≠ 0 then writeW a3 (next.toNat + 8) (blockToInsert : Int) else pure a3

/-- `insertBefore` (mempool.c:697). Note that the C code dereferences
`after`'s prev word without a `NULL` check. -/
def insertBefore (a : Arena) (after blockToInsert : Nat) : Except MemFault Arena := do
  let prev ← readW a (after + 8)
  let a1 ← writeW a (prev.toNat + 16) (blockToInsert : Int)
  let a2 ← writeW a1 (blockToInsert + 8) prev
  let a3 ← writeW a2 (after + 8) (blockToInsert : Int)
  writeW a3 (blockToInsert + 16) (after : Int)

/-- `coalesce` (mempool.c:733): merge `next` into `current` when they are
physically adjacent. -/
def coalesce (a : Arena) (cur nxt : Nat) : Except MemFault Arena := do
  let nextNext ← readW a (nxt + 16)
  let curSize ← readW a cur
  if (cur : Int) + curSize = (nxt : Int) then do
    let nxtSize ← readW a nxt
    let a1 ← writeW a cur (curSize + nxtSize)
    let a2 ← writeW a1 (cur + 16) nextNext
    if nextNext ≠ 0 then writeW a2 (nextNext.toNat + 8) (cur : Int) else pure a2
  else pure a

/-- `coalesceBlocks` (mempool.c:715). -/
def coalesceBlocks (a : Arena) (prev cur nxt : Nat) : Except MemFault Arena := do
  let a1 ← if nxt ≠ 0 then coalesce a cur nxt else pure a
  if prev ≠ 0 then coalesce a1 prev cur else pure a1

/-- The scan loop of `insertIntoFreeList` (mempool.c:640-648): walk while
`node < current`, stopping early (insert-after) at the tail. -/
def freeListScan (a : Arena) (cur : Nat) : Nat → Nat → Except MemFault (Nat × Bool)
  | _, 0 => .error .fuelOut
  | node, fuel + 1 =>
    if node < cur then do
      let nxt ← readW a (node + 16)
      if nxt = 0 then pure (node, true)
      else freeListScan a cur nxt.toNat fuel
    else pure (node, false)

/-- The common tail of `insertIntoFreeList` (mempool.c:658-667): refresh the
head pointer if it changed, then coalesce with the recorded neighbours. -/
def insertFinish (a : Arena) (cur listHead : Nat) : Except MemFault Arena := do
  let a1 ← if a.freeList ≠ listHead then writeW (setFreeList a listHead) (listHead + 8) 0
    else pure a
  let prev ← readW a1 (cur + 8)
  let next ← readW a1 (cur + 16)
  coalesceBlocks a1 prev.toNat cur next.toNat

/-- `insertIntoFreeList` (mempool.c:621). -/
def insertIntoFreeList (a : Arena) (cur : Nat) (fuel : Nat) : Except MemFault Arena := do
  let listHead0 := a.freeList
  if listHead0 = 0 then do
    let a1 ← writeW a (cur + 16) 0
    insertFinish a1 cur cur
  else do
    let listHead := if listHead0 > cur then cur else listHead0
    let (node, afterInstead) ← freeListScan a cur listHead fuel
    let a1 ← if afterInstead then insertAfter a node cur else insertBefore a node cur
    insertFinish a1 cur listHead

/-- `lpx_mempool_variable_free` (mempool.c:463): recover the back-pointer and
size from the header, validate the back-pointer (the magic check), restore
the size word and insert the span into the free list. -/
def lpx_mempool_variable_free (a : Arena) (addr : Nat) (fuel : Nat) :
    Except MemFault (Int × Arena) := do
  if addr = 0 then pure (MEMPOOL_FAILURE, a)
  else do
    let ob := addr - 16
    let poolPtr ← readW a ob
    let sz ← readW a (ob + 8)
    if poolPtr ≠ poolStructAddr then pure (MEMPOOL_FAILURE, a)
    else do
      let a1 ← writeW a ob sz
      let a2 ← insertIntoFreeList a1 ob fuel
      pure (MEMPOOL_SUCCESS, a2)

/-! ## Treemap on a node store (`treemap.c`)

`insert`, `resolve_rb_conflics`, the rotation helpers and the whole delete
path follow parent pointers, so they are embedded on an explicit node store:
node ids (`Nat`, 0 = `NULL`) mapped to records with parent/left/right links.
Every operation runs in `Option`: `none` is a `NULL` dereference (undefined
behaviour in C) or an exhausted fuel bound on a C loop. -/

/-- One `rbnode` (treemap.h): colour, key, value and the three links. -/
structure HNode where
  color : Color
  key : Nat
  value : Nat
  parent : Nat
  left : Nat
  right : Nat
deriving DecidableEq, Repr

/-- The treemap: its node store, the `head` pointer, and the next fresh id
used by `newNode`. -/
structure TMap where
  nodes : List (Nat × HNode)
  head : Nat
  nextId : Nat
deriving DecidableEq, Repr

/-- Dereference a node id. -/
def fld (m : TMap) (i : Nat) : Option HNode := m.nodes.lookup i

/-- Replace the record of node `i`. -/
def setN (m : TMap) (i : Nat) (n : HNode) : TMap :=
  { m with nodes := m.nodes.map (fun p => if p.1 = i then (i, n) else p) }

/-- Update node `i` through `f`; `none` when `i` is dangling or `NULL`. -/
def updN (m : TMap) (i : Nat) (f : HNode → HNode) : Option TMap :=
  (fld m i).map fun n => setN m i (f n)

/-- Remove node `i` from the store (the `FREE` of treemap.c). -/
def delN (m : TMap) (i : Nat) : TMap :=
  { m with nodes := m.nodes.filter (fun p => p.1 ≠ i) }

/-- `isRed` on the store: `NULL` is not red. -/
def isRedH (m : TMap) (i : Nat) : Bool :=
  match fld m i with
  | some n => n.color = Color.red
  | none => false

/-- `isBlack` (treemap.c:166). -/
def isBlackH (m : TMap) (i : Nat) : Bool := !isRedH m i

/-- `isLeftChild` (treemap.c:262): false when either pointer is `NULL`. -/
def isLeftChildH (m : TMap) (parent child : Nat) : Bool :=
  if parent = 0 || child = 0 then false
  else match fld m parent with
    | some p => p.left = child
    | none => false

/-- `isRightChild` (treemap.c:277) — literally the negation. -/
def isRightChildH (m : TMap) (parent child : Nat) : Bool :=
  !isLeftChildH m parent child

/-- `sibling` (treemap.c:301). -/
def siblingH (m : TMap) (i : Nat) : Nat :=
  match fld m i with
  | some n =>
    if n.parent = 0 then 0
    else match fld m n.parent with
      | some p => if isLeftChildH m n.parent i then p.right else p.left
      | none => 0
  | none => 0

/-- `grandparent` (treemap.c:246). -/
def grandparentH (m : TMap) (i : Nat) : Nat :=
  match fld m i with
  | some n =>
    if n.parent ≠ 0 then
      match fld m n.parent with
      | some p => p.parent
      | none => 0
    else 0
  | none => 0

/-- `uncle` (treemap.c:287). -/
def uncleH (m : TMap) (i : Nat) : Nat :=
  match fld m i with
  | some n => if n.parent ≠ 0 then siblingH m n.parent else 0
  | none => 0

/-- `hasRedChild` (treemap.c:678). -/
def hasRedChildH (m : TMap) (i : Nat) : Bool :=
  match fld m i with
  | some n => isRedH m n.right || isRedH m n.left
  | none => false

/-- `farnephew` (treemap.c:692). -/
def farnephewH (m : TMap) (i : Nat) : Nat :=
  match fld m i with
  | some n =>
    let sib := siblingH m i
    if sib ≠ 0 then
      match fld m sib with
      | some s => if isRightChildH m n.parent sib then s.right else s.left
      | none => 0
    else 0
  | none => 0

/-- `rotateLeft` (treemap.c:418), step for step. -/
def rotateLeftH (m : TMap) (x : Nat) : Option TMap := do
  let xn ← fld m x
  let parent := xn.parent
  let root := xn.right
  let m ← updN m root (fun n => { n with parent := parent })
  let m ← if parent = 0 then pure { m with head := root }
          else if isLeftChildH m parent x then updN m parent (fun n => { n with left := root })
          else updN m parent (fun n => { n with right := root })
  let rootN ← fld m root
  let m ← updN m x (fun n => { n with right := rootN.left })
  let xn2 ← fld m x
  let m ← if xn2.right ≠ 0 then updN m xn2.right (fun n => { n with parent := x }) else pure m
  let m ← updN m root (fun n => { n with left := x })
  updN m x (fun n => { n with parent := root })

/-- `rotateRight` (treemap.c:455), step for step. -/
def rotateRightH (m : TMap) (x : Nat) : Option TMap := do
  let xn ← fld m x
  let parent := xn.parent
  let root := xn.left
  let m ← updN m root (fun n => { n with parent := parent })
  let m ← if parent = 0 then pure { m with head := root }
          else if isLeftChildH m parent x then updN m parent (fun n => { n with left := root })
          else updN m parent (fun n => { n with right := root })
  let rootN ← fld m root
  let m ← updN m x (fun n => { n with left := rootN.right })
  let xn2 ← fld m x
  let m ← if xn2.left ≠ 0 then updN m xn2.left (fun n => { n with parent := x }) else pure m
  let m ← updN m root (fun n => { n with right := x })
  updN m x (fun n => { n with parent := root })

/-- The recolouring loop of `resolve_rb_conflics` (treemap.c:328-364); the
`Bool` reports whether the C code returned inside the loop (`true`) or broke
out to the rotation cases (`false`). -/
def resolveLoop (m : TMap) : Nat → Nat → Option (TMap × Nat × Bool)
  | _, 0 => none
  | cur, fuel + 1 => do
    let n ← fld m cur
    if n.parent = 0 then do
      let m ← updN m cur (fun c => { c with color := Color.black })
      pure (m, cur, true)
    else if isBlackH m n.parent then pure (m, cur, true)
    else
      let unode := uncleH m cur
      if isRedH m n.parent ∧ isRedH m unode then do
        let m ← updN m n.parent (fun c => { c with color := Color.black })
        let m ← updN m unode (fun c => { c with color := Color.black })
        let g := grandparentH m cur
        let m ← updN m g (fun c => { c with color := Color.red })
        resolveLoop m g fuel
      else pure (m, cur, false)

/-- `resolve_rb_conflics` (treemap.c:321): the loop, then the two rotation
stages on the surviving red-red conflict. -/
def resolve_rb_conflics (m : TMap) (node : Nat) (fuel : Nat) : Option TMap := do
  let (m, cur, done) ← resolveLoop m node fuel
  if done then pure m
  else do
    let n ← fld m cur
    let pnode := n.parent
    let gnode := grandparentH m cur
    let (m, cur) ←
      if isRightChildH m pnode cur ∧ isLeftChildH m gnode pnode then do
        let m' ← rotateLeftH m pnode
        let n' ← fld m' cur
        pure (m', n'.left)
      else if isLeftChildH m pnode cur ∧ isRightChildH m gnode pnode then do
        let m' ← rotateRightH m pnode
        let n' ← fld m' cur
        pure (m', n'.right)
      else pure (m, cur)
    let gnode2 := grandparentH m cur
    let n2 ← fld m cur
    let pnode2 := n2.parent
    let m ← updN m pnode2 (fun c => { c with color := Color.black })
    let m ← updN m gnode2 (fun c => { c with color := Color.red })
    if isLeftChildH m pnode2 cur ∧ isLeftChildH m gnode2 pnode2 then rotateRightH m gnode2
    else rotateLeftH m gnode2

/-- The binary-search descent of `insert` (treemap.c:196-229); the `Bool`
reports whether the fresh node was linked in (`true`) or an existing key's
value was replaced and the fresh node released (`false`). -/
def insertLoop (m : TMap) (newId key value : Nat) : Nat → Nat → Option (TMap × Bool)
  | _, 0 => none
  | cur, fuel + 1 => do
    let n ← fld m cur
    if key > n.key then
      if n.right = 0 then do
        let m ← updN m cur (fun c => { c with right := newId })
        let m ← updN m newId (fun c => { c with parent := cur })
        pure (m, true)
      else insertLoop m newId key value n.right fuel
    else if key < n.key then
      if n.left = 0 then do
        let m ← updN m cur (fun c => { c with left := newId })
        let m ← updN m newId (fun c => { c with parent := cur })
        pure (m, true)
      else insertLoop m newId key value n.left fuel
    else do
      let m ← updN m cur (fun c => { c with value := value })
      pure (delN m newId, false)

/-- `insert` (treemap.c:178): allocate a red node, descend, rebalance, and
finally repaint the root black (the head-node case returns straight after
`resolve_rb_conflics`, as in the C code). -/
def treemap_insert (m : TMap) (key value : Nat) (fuel : Nat) : Option TMap := do
  let newId := m.nextId
  let m0 : TMap :=
    { nodes := m.nodes ++ [(newId, ⟨Color.red, key, value, 0, 0, 0⟩)],
      head := m.head, nextId := m.nextId + 1 }
  if m.head = 0 then
    resolve_rb_conflics { m0 with head := newId } newId fuel
  else do
    let (m1, inserted) ← insertLoop m0 newId key value m.head fuel
    if inserted then do
      let m2 ← resolve_rb_conflics m1 newId fuel
      updN m2 m2.head (fun n => { n with color := Color.black })
    else pure m1

/-- `lpx_treemap_put` (treemap.c:494) on an unprotected map. -/
def lpx_treemap_put (m : TMap) (key value : Nat) (fuel : Nat) : Option (Int × TMap) :=
  (treemap_insert m key value fuel).map (fun m' => (TREEMAP_SUCCESS, m'))

/-- The descent of `predecessor` (treemap.c:652-655): rightmost node of the
subtree rooted at `i`. -/
def predecessorLoop (m : TMap) : Nat → Nat → Option Nat
  | _, 0 => none
  | i, fuel + 1 => do
    let n ← fld m i
    if n.right = 0 then pure i else predecessorLoop m n.right fuel

/-- `predecessor` (treemap.c:648): rightmost node of the left subtree, or
`NULL` when there is no left child. -/
def predecessorH (m : TMap) (i : Nat) (fuel : Nat) : Option Nat := do
  let n ← fld m i
  if n.left = 0 then pure 0 else predecessorLoop m n.left fuel

/-- `successor` (treemap.c:667): the C function is a stub that always
returns `NULL`. -/
def successorH (_ : TMap) (_ : Nat) : Option Nat := pure 0

/-- `findReplacementCandidate` (treemap.c:624): the predecessor when it
exists; through the (stub) successor branch otherwise; `NULL` failing both. -/
def findReplacementCandidateH (m : TMap) (node : Nat) (fuel : Nat) : Option Nat := do
  let p ← predecessorH m node fuel
  if p ≠ 0 then pure p
  else do
    let s ← successorH m node
    if s ≠ 0 then (fld m node).map (·.right)
    else pure 0

/-- The double-black resolution loop of `deleteReplacementCandidate`
(treemap.c:742-808). -/
def drcLoop (m : TMap) : Nat → Nat → Option TMap
  | _, 0 => none
  | cur, fuel + 1 => do
    let n ← fld m cur
    if n.parent = 0 then pure m
    else
      let parent := n.parent
      let sib := siblingH m cur
      if isRedH m sib then do
        let m ← updN m sib (fun c => { c with color := Color.black })
        let m ← updN m parent (fun c => { c with color := Color.red })
        let m ← if isLeftChildH m parent cur then rotateLeftH m parent
                else rotateRightH m parent
        drcLoop m cur fuel
      else do
        let sibN ← fld m sib
        if isBlackH m sibN.left ∧ isBlackH m sibN.right then do
          let m ← updN m sib (fun c => { c with color := Color.red })
          let pN ← fld m parent
          if pN.color = Color.black then drcLoop m parent fuel
          else updN m parent (fun c => { c with color := Color.black })
        else if isRedH m sibN.left ∨ isRedH m sibN.right then do
          let fn := farnephewH m cur
          let m ← if isBlackH m fn then
                    (if isLeftChildH m sib fn then rotateLeftH m sib
                     else rotateRightH m sib)
                  else pure m
          let sib2 := siblingH m cur
          let fn2 := farnephewH m cur
          let m ← updN m fn2 (fun c => { c with color := Color.black })
          let sib2N ← fld m sib2
          let sp ← fld m sib2N.parent
          let m ← updN m sib2 (fun c => { c with color := sp.color })
          let curN ← fld m cur
          let m ← updN m curN.parent (fun c => { c with color := Color.black })
          let curN2 ← fld m cur
          if isLeftChildH m curN2.parent cur then rotateLeftH m curN2.parent
          else rotateRightH m curN2.parent
        else drcLoop m cur fuel

/-- `deleteReplacementCandidate` (treemap.c:716): the red-leaf and
black-with-red-child shortcuts, falling through to the loop; returns the
store and the node that is to be freed. -/
def deleteReplacementCandidateH (m : TMap) (node candidate : Nat) (fuel : Nat) :
    Option (TMap × Nat) := do
  let cN ← fld m candidate
  if isRedH m candidate ∧ cN.left = 0 ∧ cN.right = 0 then do
    let m ← if isLeftChildH m cN.parent candidate then
              updN m cN.parent (fun c => { c with left := 0 })
            else updN m cN.parent (fun c => { c with right := 0 })
    pure (m, candidate)
  else if isBlackH m candidate ∧ hasRedChildH m candidate then do
    let child := if cN.left ≠ 0 then cN.left else cN.right
    let chN ← fld m child
    let m ← updN m candidate
      (fun c => { c with key := chN.key, value := chN.value, left := 0, right := 0 })
    pure (m, child)
  else do
    let m ← drcLoop m candidate fuel
    pure (m, candidate)

/-- `delete` (treemap.c:819): pick the replacement, delete it, copy its data
into the target node, free it, unlink it from its parent and repaint the
root black (or clear the head when the root itself was freed). The unlink
compares pointer values against the already-freed node, as the C code does. -/
def treemap_delete_node (m : TMap) (node : Nat) (fuel : Nat) : Option TMap := do
  let cand0 ← findReplacementCandidateH m node fuel
  let candidate := if cand0 = 0 then node else cand0
  let (m1, cand) ← deleteReplacementCandidateH m node candidate fuel
  let cN ← fld m1 cand
  let parent := cN.parent
  let m2 := delN m1 cand
  let m3 ← if node ≠ cand then
             updN m2 node (fun c => { c with key := cN.key, value := cN.value })
           else pure m2
  if m3.head = cand then pure { m3 with head := 0 }
  else do
    let m4 ← if isLeftChildH m3 parent cand then updN m3 parent (fun c => { c with left := 0 })
             else updN m3 parent (fun c => { c with right := 0 })
    updN m4 m4.head (fun c => { c with color := Color.black })

/-- The key-search loop shared by `lpx_treemap_delete` (treemap.c:586-597). -/
def treemapSearch (m : TMap) (key : Nat) : Nat → Nat → Option Nat
  | _, 0 => none
  | cur, fuel + 1 =>
    if cur = 0 then pure 0
    else do
      let n ← fld m cur
      if n.key = key then pure cur
      else if key < n.key then treemapSearch m key n.left fuel
      else treemapSearch m key n.right fuel

/-- `lpx_treemap_delete` (treemap.c:570) on an unprotected map. -/
def lpx_treemap_delete (m : TMap) (key : Nat) (fuel : Nat) : Option (Int × TMap) := do
  let found ← treemapSearch m key m.head fuel
  if found = 0 then pure (TREEMAP_ERROR, m)
  else do
    let m' ← treemap_delete_node m found fuel
    pure (TREEMAP_SUCCESS, m')

/-- Read the pointer structure back as a value tree (fuel bounds a cyclic
store). -/
def toRBTree (m : TMap) : Nat → Nat → Option RBTree
  | _, 0 => none
  | 0, _ + 1 => some RBTree.nil
  | i, fuel + 1 => do
    let n ← fld m i
    let l ← toRBTree m n.left fuel
    let r ← toRBTree m n.right fuel
    pure (RBTree.node n.color n.key n.value l r)

/-- The empty treemap freshly created by `lpx_treemap_init`. -/
def emptyTMap : TMap := { nodes := [], head := 0, nextId := 1 }

/-- The concrete C2 scenario: put keys 5, 2, 7, 1, 4, 6, 8, 3 (value = key). -/
def c2Puts : Option TMap :=
  [5, 2, 7, 1, 4, 6, 8, 3].foldlM (fun m k => treemap_insert m k k 100) emptyTMap

/-- …then delete key 5. -/
def c2AfterDelete : Option TMap :=
  c2Puts.bind fun m => (lpx_treemap_delete m 5 100).map (·.2)

/-- The tree shape before the delete. -/
def c2TreeBefore : Option RBTree := c2Puts.bind fun m => toRBTree m m.head 100

/-- The tree shape after the delete. -/
def c2TreeAfter : Option RBTree := c2AfterDelete.bind fun m => toRBTree m m.head 100

/-! ## Thread pool (`threadPool.c`)

Sequential model of the submission path. Worker threads never run between
the submitter's steps (single-thread run), so only the submitter-visible
state matters: the `threadCounter` semaphore, the availability array, the
live count and the per-worker records. `malloc` and `pthread_create` may
fail; an oracle of booleans, consumed in call order, decides each of them
(the spec's *ResourceExhausted* category). -/

def THREAD_POOL_SUCCESS : Int := 0

def THREAD_POOL_FAILURE : Int := -1

def THREAD_UNAVAILABLE : Int := 0

def THREAD_AVAILABLE : Int := 1

def THREAD_UNINITIALIZED : Int := 2

/-- A worker record (`Thread` in threadPool.h): its `workAvailable`
semaphore and its work-item slot (`none` = `NULL`). -/
structure Worker where
  workAvailable : Sem
  workItem : Option Nat
deriving DecidableEq, Repr

/-- Thread-pool state visible to a submitter. -/
structure TPool where
  minThreads : Nat
  maxThreads : Nat
  numAlive : Nat
  threads : List Worker
  availability : List Int
  threadCounter : Sem
deriving DecidableEq, Repr

/-- Pop the next allocation outcome; an exhausted oracle means success. -/
def popOracle : List Bool → Bool × List Bool
  | [] => (true, [])
  | b :: rest => (b, rest)

/-- `addNewWorker` (threadPool.c:327): `allocOk` is the `malloc` of the
`Thread` record, `spawnOk` the `pthread_create`. Note that on a failed
`pthread_create` the already-incremented `numAlive` is not rolled back. -/
def addNewWorker (p : TPool) (allocOk spawnOk : Bool) : Int × TPool :=
  if ¬allocOk then (THREAD_POOL_FAILURE, p)
  else if p.numAlive + 1 > p.maxThreads then (THREAD_POOL_FAILURE, p)
  else
    let idx := p.numAlive
    let p1 := { p with numAlive := p.numAlive + 1 }
    if ¬spawnOk then (THREAD_POOL_FAILURE, p1)
    else
      (THREAD_POOL_SUCCESS,
       { p1 with
         threads := p1.threads ++ [{ workAvailable := { value := 0, inited := true },
                                     workItem := none }],
         availability := p1.availability.set idx THREAD_AVAILABLE })

/-- `getFirstAvailableWorker` (threadPool.c:280): first index below
`numAlive` marked available, which it flips to unavailable; `-1` if none. -/
def getFirstAvailableWorker (p : TPool) : Int × TPool :=
  match (List.range p.numAlive).find? (fun i => p.availability.getD i 0 = THREAD_AVAILABLE) with
  | some i => ((i : Int), { p with availability := p.availability.set i THREAD_UNAVAILABLE })
  | none => (-1, p)

/-- Outcome of the growth loop of `lpx_threadpool_execute`. -/
inductive GrowOut where
  | found (idx : Nat)
  | failed
deriving DecidableEq, Repr

/-- The `while (runnableIndex == -1 && numAlive < maxThreads)` loop of
`lpx_threadpool_execute` (threadPool.c:219-230). -/
def executeGrowLoop (p : TPool) (oracle : List Bool) (idx : Int) :
    Nat → Option (GrowOut × TPool × List Bool)
  | 0 => none
  | fuel + 1 =>
    if idx = -1 ∧ p.numAlive < p.maxThreads then
      let (aOk, o1) := popOracle oracle
      let (sOk, o2) := popOracle o1
      let (r, p1) := addNewWorker p aOk sOk
      if r ≠ 0 then some (GrowOut.failed, p1, o2)
      else
        let (idx', p2) := getFirstAvailableWorker p1
        executeGrowLoop p2 o2 idx' fuel
    else if idx = -1 then some (GrowOut.failed, p, oracle)
    else some (GrowOut.found idx.toNat, p, oracle)

/-- `lpx_threadpool_execute` (threadPool.c:166): future and work-item
allocation (two oracle entries), the `threadCounter` down, the availability
scan with elastic growth, and the hand-off to the chosen worker. The result
is `none` when the call blocks forever, otherwise the returned future
(`none` = the C `NULL` return) and the pool state after the call. -/
def lpx_threadpool_execute (p : TPool) (oracle : List Bool) (fuel : Nat) :
    Option (Option Nat × TPool) :=
  let (fOk, o1) := popOracle oracle
  if ¬fOk then some (none, p)
  else
    let (wOk, o2) := popOracle o1
    if ¬wOk then some (none, p)
    else
      match lpx_sem_down_multiple p.threadCounter 1 with
      | none => none
      | some (r, tc') =>
        if r ≠ 0 then some (none, p)
        else
          let p1 := { p with threadCounter := tc' }
          let (idx0, p2) := getFirstAvailableWorker p1
          match executeGrowLoop p2 o2 idx0 fuel with
          | none => none
          | some (GrowOut.failed, p3, _) => some (none, p3)
          | some (GrowOut.found i, p3, _) =>
            match p3.threads[i]? with
            | none => some (none, p3)
            | some w =>
              let (ru, wa') := lpx_sem_up_multiple w.workAvailable 1
              let w' := { w with workItem := some 1, workAvailable := wa' }
              let p4 := { p3 with threads := p3.threads.set i w' }
              if ru ≠ 0 then some (none, p4) else some (some 1, p4)

/-- The `addNewWorker` loop of `lpx_threadpool_init` (threadPool.c:87-92). -/
def initWorkersLoop (p : TPool) (oracle : List Bool) : Nat → Option (TPool × List Bool)
  | 0 => some (p, oracle)
  | k + 1 =>
    let (aOk, o1) := popOracle oracle
    let (sOk, o2) := popOracle o1
    let (r, p1) := addNewWorker p aOk sOk
    if r ≠ 0 then none else initWorkersLoop p1 o2 k

/-- `lpx_threadpool_init` (threadPool.c:36): argument validation, the
availability array all-uninitialized, `threadCounter` at `maxThreads`, then
`minThreads` workers. -/
def lpx_threadpool_init (minThreads maxThreads : Int) (isFixed : Bool)
    (oracle : List Bool) : Option TPool :=
  if maxThreads ≤ 0 ∨ maxThreads < minThreads then none
  else if minThreads < 0 then none
  else if isFixed ∧ minThreads ≠ maxThreads then none
  else
    let p0 : TPool :=
      { minThreads := minThreads.toNat, maxThreads := maxThreads.toNat,
        numAlive := 0, threads := [],
        availability := List.replicate maxThreads.toNat THREAD_UNINITIALIZED,
        threadCounter := { value := maxThreads, inited := true } }
    (initWorkersLoop p0 oracle minThreads.toNat).map (·.1)

/-- The concrete C3 scenario: an elastic pool `(min, max) = (0, 1)`. -/
def c3Pool0 : Option TPool := lpx_threadpool_init 0 1 false []

/-- One submission to that pool during which the worker-record `malloc`
inside `addNewWorker` fails (oracle: future ok, work item ok, `Thread`
record fails). -/
def c3Run : Option (Option Nat × TPool) :=
  c3Pool0.bind fun p => lpx_threadpool_execute p [true, true, false] 4

/-! ### Concrete arena scenarios -/

/-- Block base of the concrete arena scenarios (any sufficiently large
`malloc` result; 1 MiB here). -/
def c1Base : Nat := 1048576

/-- A 96-byte arena built over the caller's block. -/
def c1Arena0 : Option Arena := lpx_mempool_create_variable_pool_from_block c1Base 96

/-- C1 scenario, allocation phase: `alloc(24)` then `alloc(40)`; returns the
two user pointers and the arena. The 40-byte request takes the whole
remaining low span, so the second pointer is below the first. -/
def c1AfterAllocs : Except MemFault (Nat × Nat × Arena) :=
  match c1Arena0 with
  | none => .error .fuelOut
  | some a0 => do
    let r1 ← lpx_mempool_variable_alloc a0 24 100
    match r1 with
    | none => .error .fuelOut
    | some (p1, a1) => do
      let r2 ← lpx_mempool_variable_alloc a1 40 100
      match r2 with
      | none => .error .fuelOut
      | some (p2, a2) => pure (p1, p2, a2)

/-- …then free the first (high-address) allocation. -/
def c1AfterFirstFree : Except MemFault (Nat × Arena) := do
  let (p1, p2, a2) ← c1AfterAllocs
  let (r, a3) ← lpx_mempool_variable_free a2 p1 100
  if r = 0 then pure (p2, a3) else .error .fuelOut

/-- The user pointers handed out by the two allocations. -/
def c1Ptrs : Except MemFault (Nat × Nat) :=
  c1AfterAllocs.map (fun t => (t.1, t.2.1))

/-- Observables after the first free: the free-list head and the size words
of the free span (offset 56) and of the allocated span (offset 0). -/
def c1Observables : Except MemFault (Nat × Int × Int) :=
  c1AfterFirstFree.bind fun s => do
    let s1 ← readW s.2 (c1Base + 56)
    let s2 ← readW s.2 (c1Base + 8)
    pure (s.2.freeList, s1, s2)

/-- …finally free the second allocation, whose address is below the current
free-list head. -/
def c1Run : Except MemFault (Int × Arena) := do
  let (p2, a3) ← c1AfterFirstFree
  lpx_mempool_variable_free a3 p2 100

/-- C5 scenario: `alloc(4)` on a fresh 96-byte arena; returns the user
pointer (relative to base) and the size word recorded in the allocated
header. -/
def c5Run : Except MemFault (Nat × Int) :=
  match c1Arena0 with
  | none => .error .fuelOut
  | some a0 => do
    let r ← lpx_mempool_variable_alloc a0 4 100
    match r with
    | none => .error .fuelOut
    | some (p, a) => do
      let hdr ← readW a (p - 8)
      pure (p - c1Base, hdr)

/-- Witness arena for the split-rule theorem: a single free span of size 40
at the base. -/
def w4Arena : Arena :=
  { base := 1024, poolSize := 96, freeList := 1024,
    mem := fun p => if p = 1024 then 40 else 0 }

/-- Witness queue for the FIFO theorem: capacity 2, freshly initialized. -/
def w6Q0 : PCQ :=
  { maxSize := 2, nqSem := ⟨2, true⟩, dqSem := ⟨0, true⟩, items := [], poolFree := 2 }

/-- Witness queue for the timed-enqueue theorem: capacity 2 holding two
items, both semaphores consistent with a full queue. -/
def w7Full : PCQ :=
  { maxSize := 2, nqSem := ⟨0, true⟩, dqSem := ⟨2, true⟩, items := [7, 9], poolFree := 0 }

/-- The state a successful blocking enqueue produces (see
`pcq_enqueue_spec`). -/
def pcqAfterEnqueue (q : PCQ) (v : Int) : PCQ :=
  { maxSize := q.maxSize, nqSem := ⟨q.nqSem.value - 1, true⟩,
    dqSem := ⟨q.dqSem.value + 1, true⟩, items := q.items ++ [v],
    poolFree := q.poolFree - 1 }

/-- The state a successful blocking dequeue produces (see
`pcq_dequeue_spec`). -/
def pcqAfterDequeue (q : PCQ) : PCQ :=
  { maxSize := q.maxSize, nqSem := ⟨q.nqSem.value + 1, true⟩,
    dqSem := ⟨q.dqSem.value - 1, true⟩, items := q.items.tail,
    poolFree := q.poolFree + 1 }

/-- The state `lpx_pcq_init` produces for a depth `c ≥ 1`. -/
def pcqInitState (c : Int) : PCQ :=
  { maxSize := c.toNat, nqSem := ⟨c, true⟩, dqSem := ⟨c - c, true⟩,
    items := [], poolFree := c.toNat }

/-- The input stream `1..N`. -/
def oneToN (N : Nat) : List Int := (List.range N).map (fun i => ((i + 1 : Nat) : Int))

/-! # Theorems -/

/-- **C9.** For every initialized semaphore with value `v ≥ 0`, an
`lpx_sem_up_multiple` by `k` followed by an `lpx_sem_down_multiple` by the
same `k` (run sequentially) succeeds without blocking and leaves the
semaphore exactly at value `v`; the `k = 1` case is `lpx_sem_up` /
`lpx_sem_down` (sem.c:85, 98). -/
theorem c9_up_down_identity (v k : Int) (hv : 0 ≤ v) (hk : 0 ≤ k) :
    lpx_sem_up_multiple ⟨v, true⟩ k = (SEMAPHORE_SUCCESS, ⟨v + k, true⟩) ∧
    lpx_sem_down_multiple ⟨v + k, true⟩ k = some (SEMAPHORE_SUCCESS, ⟨v, true⟩) := by
  constructor
  · simp [lpx_sem_up_multiple]
  · have h1 : ¬ (v + k < k) := by omega
    have h2 : v + k - k = v := by omega
    simp [lpx_sem_down_multiple, h1, h2]

/-- Witness for C9 at `v = 5`, `k = 3`. -/
theorem c9_up_down_identity_witness :
    (0 : Int) ≤ 5 ∧ (0 : Int) ≤ 3 ∧
    (lpx_sem_up_multiple ⟨5, true⟩ 3 = (SEMAPHORE_SUCCESS, ⟨8, true⟩) ∧
     lpx_sem_down_multiple ⟨8, true⟩ 3 = some (SEMAPHORE_SUCCESS, ⟨5, true⟩)) :=
  ⟨by norm_num, by norm_num, c9_up_down_identity 5 3 (by norm_num) (by norm_num)⟩

/-- **C7.** `lpx_pcq_timed_enqueue` with a positive timeout on a queue that
holds exactly `capacity` items (so its slot semaphore is 0) returns the
distinct `PCQ_TIMEOUT` outcome and returns the queue — items, order and both
semaphore counts — exactly as it was. -/
theorem c7_timed_enqueue_full (q : PCQ) (v t : Int)
    (hfull : q.items.length = q.maxSize)
    (hsem : q.nqSem.value = 0)
    (hinit : q.nqSem.inited = true)
    (ht : 0 < t) :
    lpx_pcq_timed_enqueue q v t = (PCQ_TIMEOUT, q) := by
  have h1 : ¬ (t ≤ 0) := by omega
  have h2 : q.nqSem.value < 1 := by omega
  simp [lpx_pcq_timed_enqueue, lpx_sem_timed_down, hinit, h1, h2,
    SEMAPHORE_TIMEOUT, PCQ_TIMEOUT]

/-- Witness for C7 on a full capacity-2 queue with timeout 1000. -/
theorem c7_timed_enqueue_full_witness :
    w7Full.items.length = w7Full.maxSize ∧ w7Full.nqSem.value = 0 ∧
    w7Full.nqSem.inited = true ∧ (0 : Int) < 1000 ∧
    lpx_pcq_timed_enqueue w7Full 4 1000 = (PCQ_TIMEOUT, w7Full) :=
  ⟨by decide, by decide, by decide, by decide,
   c7_timed_enqueue_full w7Full 4 1000 (by decide) (by decide) (by decide) (by decide)⟩

/-- **C10.** For every tree and every key not present in it, the search loop
of `lpx_treemap_get` returns `TREEMAP_ERROR` and never writes through the
caller's output pointer (the embedding returns what was written, `none` = no
write); the map is not modified by the search (the embedded search is a pure
read of the tree). -/
theorem c10_get_absent (t : RBTree) (key : Nat) (h : key ∉ inorderKeys t) :
    lpx_treemap_get t key = (TREEMAP_ERROR, none) := by
  induction t with
  | nil => rfl
  | node c k v l r ihl ihr =>
    simp only [inorderKeys, List.mem_append, List.mem_cons] at h
    push_neg at h
    obtain ⟨h1, h2, h3⟩ := h
    unfold lpx_treemap_get
    rw [if_neg (fun he => h2 he.symm)]
    split
    · exact ihl h1
    · exact ihr h3

/-- Witness for C10: key 3 is absent from the singleton tree with key 5. -/
theorem c10_get_absent_witness :
    (3 : Nat) ∉ inorderKeys (RBTree.node Color.black 5 5 RBTree.nil RBTree.nil) ∧
    lpx_treemap_get (RBTree.node Color.black 5 5 RBTree.nil RBTree.nil) 3
      = (TREEMAP_ERROR, none) :=
  ⟨by decide, c10_get_absent _ 3 (by decide)⟩

/-- **C5, counterexample.** The claim states the adjusted size equals
`max(n + header, 3·word)`. For `n = 4` the code computes
`4 + 16 = 20 < 24`, then adds another 24, using and recording 44 — not
`max(20, 24) = 24`. The concrete run allocates 4 bytes from a fresh 96-byte
arena: the user pointer is at offset 68 and the header size word is 44. -/
theorem c5_adjusted_size_counterexample :
    adjustSize 4 = 44 ∧ c5Run = Except.ok (68, 44) ∧
    (44 : Int) ≠ max ((4 : Int) + 16) 24 := by
  refine ⟨rfl, rfl, by norm_num⟩

/-- **C5, amended.** For a request of `n ≥ 0` bytes the adjusted span size
equals `n + header` when that is already at least `3·word`, and
`n + header + 3·word` otherwise; in particular it is always at least
`max(n + header, 3·word)` but exceeds the claimed value for small requests. -/
theorem c5_adjusted_size_amended (n : Int) (hn : 0 ≤ n) :
    (24 ≤ n + 16 → adjustSize n = n + 16) ∧
    (n + 16 < 24 → adjustSize n = n + 16 + 24) ∧
    max (n + 16) 24 ≤ adjustSize n := by
  have hd : adjustSize n = if n + 16 < 24 then n + 16 + 24 else n + 16 := rfl
  rw [hd]
  refine ⟨fun h => by rw [if_neg (by omega)], fun h => by rw [if_pos (by omega)], ?_⟩
  rcases max_cases (n + 16) (24 : Int) with ⟨he, _⟩ | ⟨he, _⟩ <;> rw [he] <;> split <;> omega

/-- Witness for the amended C5 at `n = 4`. -/
theorem c5_adjusted_size_amended_witness :
    (0 : Int) ≤ 4 ∧
    ((24 ≤ (4 : Int) + 16 → adjustSize 4 = 4 + 16) ∧
     ((4 : Int) + 16 < 24 → adjustSize 4 = 4 + 16 + 24) ∧
     max ((4 : Int) + 16) 24 ≤ adjustSize 4) :=
  ⟨by norm_num, c5_adjusted_size_amended 4 (by norm_num)⟩

/-- **C1.** The two allocations hand out the high tail (offset 72) and then
the whole low span (offset 16). Freeing the high block keeps the arena
consistent: free list head at offset 56, a free span of size 40 and an
allocated span of size 56 (sum 96 = S). Freeing the low block — the case
the claim singles out, a freed span below the free-list head — makes
`insertIntoFreeList` insert the span *before itself*: `insertBefore` reads
the span's stale prev word (the old size, 56) as a pointer and writes
through it, an out-of-block store. The free-list invariants cannot survive
the call; the run faults. -/
theorem c1_free_below_head_faults :
    c1Ptrs = Except.ok (c1Base + 72, c1Base + 16) ∧
    c1Observables = Except.ok (c1Base + 56, 40, 56) ∧
    c1Run = Except.error MemFault.oob :=
  ⟨rfl, rfl, rfl⟩

/-- **C2.** After `put 5,2,7,1,4,6,8,3` the tree is a valid red/black tree;
`delete 5` then routes through the black-predecessor-with-red-child path,
whose unlink logic runs twice (treemap.c:723-727 and 853-857) and copies the
red child's key both into the predecessor and into the deleted node: the
in-order key sequence becomes `1,2,3,3,6,7,8` — key 3 duplicated, key 4
lost — violating the strictly-ascending invariant. -/
theorem c2_delete_breaks_inorder :
    (c2TreeBefore.map specRBValid) = some true ∧
    (c2TreeAfter.map inorderKeys) = some [1, 2, 3, 3, 6, 7, 8] ∧
    strictAscend [1, 2, 3, 3, 6, 7, 8] = false :=
  ⟨by decide, by decide, by decide⟩

/-- Under the queue invariant with room available, `lpx_pcq_enqueue`
succeeds, appends the value at the tail and adjusts both counters. -/
theorem pcq_enqueue_spec (q : PCQ) (v : Int) (h : PCQInv q)
    (hlen : q.items.length < q.maxSize) :
    lpx_pcq_enqueue q v = some (PCQ_SUCCESS, pcqAfterEnqueue q v) := by
  obtain ⟨hni, hdi, hle, hnv, hdv, hpf⟩ := h
  have h1 : ¬ (q.nqSem.value < 1) := by omega
  have h2 : ¬ (q.poolFree = 0) := by omega
  simp [lpx_pcq_enqueue, lpx_sem_down_multiple, pcq_enqueue_node, pcqAfterEnqueue,
    lpx_sem_up_multiple, hni, hdi, h1, h2, PCQ_SUCCESS, SEMAPHORE_SUCCESS]

/-- Under the queue invariant, a blocking enqueue on a full queue waits
forever in a sequential run. -/
theorem pcq_enqueue_blocked (q : PCQ) (v : Int) (h : PCQInv q)
    (hlen : ¬ q.items.length < q.maxSize) :
    lpx_pcq_enqueue q v = none := by
  obtain ⟨hni, hdi, hle, hnv, hdv, hpf⟩ := h
  have h1 : q.nqSem.value < 1 := by omega
  simp [lpx_pcq_enqueue, lpx_sem_down_multiple, hni, h1]

/-- Under the queue invariant with the list non-empty, `lpx_pcq_dequeue`
pops the head and adjusts both counters. -/
theorem pcq_dequeue_spec (q : PCQ) (x : Int) (rest : List Int) (h : PCQInv q)
    (hitems : q.items = x :: rest) :
    lpx_pcq_dequeue q = some (PCQ_SUCCESS, some x, pcqAfterDequeue q) := by
  obtain ⟨hni, hdi, hle, hnv, hdv, hpf⟩ := h
  have h1 : ¬ (q.dqSem.value < 1) := by
    rw [hdv, hitems]; simp
  simp [lpx_pcq_dequeue, lpx_sem_down_multiple, pcq_dequeue_node, pcqAfterDequeue,
    lpx_sem_up_multiple, hni, hdi, h1, hitems, PCQ_SUCCESS, SEMAPHORE_SUCCESS]

/-- Under the queue invariant, a blocking dequeue on an empty queue waits
forever in a sequential run. -/
theorem pcq_dequeue_blocked (q : PCQ) (h : PCQInv q) (hitems : q.items = []) :
    lpx_pcq_dequeue q = none := by
  obtain ⟨hni, hdi, hle, hnv, hdv, hpf⟩ := h
  have h1 : q.dqSem.value < 1 := by rw [hdv, hitems]; simp
  simp [lpx_pcq_dequeue, lpx_sem_down_multiple, hdi, h1]

/-- The queue invariant survives a successful enqueue. -/
theorem pcq_inv_enqueue (q : PCQ) (v : Int) (h : PCQInv q)
    (hlen : q.items.length < q.maxSize) :
    PCQInv (pcqAfterEnqueue q v) := by
  obtain ⟨hni, hdi, hle, hnv, hdv, hpf⟩ := h
  refine ⟨rfl, rfl, ?_, ?_, ?_, ?_⟩ <;> simp [pcqAfterEnqueue] <;> omega

/-- The queue invariant survives a successful dequeue. -/
theorem pcq_inv_dequeue (q : PCQ) (x : Int) (rest : List Int) (h : PCQInv q)
    (hitems : q.items = x :: rest) :
    PCQInv (pcqAfterDequeue q) := by
  obtain ⟨hni, hdi, hle, hnv, hdv, hpf⟩ := h
  rw [hitems] at hle hnv hdv hpf
  simp at hle hnv hdv hpf
  refine ⟨rfl, rfl, ?_, ?_, ?_, ?_⟩ <;> simp [pcqAfterDequeue, hitems] <;> omega

/-- Any completed sequential history starting from an invariant-consistent
queue dequeues exactly the first `#dequeues` elements of the stream
`initial items ++ inputs`, in order. -/
theorem pcqRun_fifo_aux (ops : List Bool) :
    ∀ (q : PCQ) (ins acc : List Int) (qf : PCQ) (outs : List Int),
      PCQInv q → pcqRun q ins ops acc = some (qf, outs) →
      outs = acc ++ (q.items ++ ins).take (ops.count false) := by
  induction ops with
  | nil =>
    intro q ins acc qf outs _ hr
    simp [pcqRun] at hr
    simp [hr.2.symm]
  | cons op rest ih =>
    intro q ins acc qf outs h hr
    cases op with
    | true =>
      cases ins with
      | nil => simp [pcqRun] at hr
      | cons v ins' =>
        by_cases hlen : q.items.length < q.maxSize
        · rw [show pcqRun q (v :: ins') (true :: rest) acc
              = pcqRun (pcqAfterEnqueue q v) ins' rest acc by
              simp [pcqRun, pcq_enqueue_spec q v h hlen, PCQ_SUCCESS]] at hr
          have := ih _ _ _ _ _ (pcq_inv_enqueue q v h hlen) hr
          simpa [List.count_cons, List.append_assoc, pcqAfterEnqueue] using this
        · rw [show pcqRun q (v :: ins') (true :: rest) acc = none by
              simp [pcqRun, pcq_enqueue_blocked q v h hlen]] at hr
          cases hr
    | false =>
      cases hq : q.items with
      | nil =>
        rw [show pcqRun q ins (false :: rest) acc = none by
            simp [pcqRun, pcq_dequeue_blocked q h hq]] at hr
        cases hr
      | cons x rest' =>
        rw [show pcqRun q ins (false :: rest) acc
            = pcqRun (pcqAfterDequeue q) ins rest (acc ++ [x]) by
            simp [pcqRun, pcq_dequeue_spec q x rest' h hq, PCQ_SUCCESS]] at hr
        have := ih _ _ _ _ _ (pcq_inv_dequeue q x rest' h hq) hr
        rw [this]
        simp [List.count_cons, pcqAfterDequeue, hq, List.append_assoc]

/-- **C6.** The bounded queue is FIFO: starting from a freshly initialized
queue of any capacity, any completed sequential history of blocking
enqueues of the values `1..N` (in that order) interleaved with dequeues —
one that never blocks on a full or empty queue — in which `N` dequeues
occur, dequeues exactly `1..N` in that order. -/
theorem c6_fifo (c : Int) (N : Nat) (ops : List Bool) (q0 qf : PCQ) (outs : List Int)
    (hinit : lpx_pcq_init c = some q0)
    (hrun : pcqRun q0 (oneToN N) ops [] = some (qf, outs))
    (hdeq : ops.count false = N) :
    outs = oneToN N := by
  have hc : ¬ (c < 1) := by
    intro hc
    simp [lpx_pcq_init, hc] at hinit
  have hc0 : ¬ (c ≤ 0) := by omega
  have hcc : ¬ (c < c) := by omega
  have hq0 : q0 = pcqInitState c := by
    have hi : lpx_pcq_init c = some (pcqInitState c) := by
      simp [lpx_pcq_init, lpx_sem_init, lpx_sem_down_multiple, pcqInitState,
        hc, hc0, hcc]
    rw [hi] at hinit
    exact (Option.some.inj hinit).symm
  have hinv : PCQInv q0 := by
    rw [hq0]
    refine ⟨rfl, rfl, ?_, ?_, ?_, ?_⟩ <;> simp [pcqInitState] <;> omega
  have := pcqRun_fifo_aux ops q0 _ [] qf outs hinv hrun
  rw [this, hq0, hdeq]
  simp only [pcqInitState, List.nil_append]
  exact List.take_of_length_le (by simp [oneToN])

/-- Witness for C6: capacity 2, inputs 1..3, history
enqueue/enqueue/dequeue/enqueue/dequeue/dequeue. -/
theorem c6_fifo_witness :
    lpx_pcq_init 2 = some w6Q0 ∧
    pcqRun w6Q0 (oneToN 3) [true, true, false, true, false, false] []
      = some (w6Q0, [1, 2, 3]) ∧
    ([true, true, false, true, false, false].count false = 3) ∧
    ([1, 2, 3] : List Int) = oneToN 3 :=
  ⟨by decide, by decide, by decide,
   c6_fifo 2 3 [true, true, false, true, false, false] w6Q0 w6Q0 [1, 2, 3]
     (by decide) (by decide) (by decide)⟩

/-- `okAddr` spelt out. -/
theorem okAddr_iff (a : Arena) (p : Nat) :
    okAddr a p = true ↔ (a.base ≤ p ∧ p + 8 ≤ a.base + a.poolSize) := by
  simp [okAddr]

/-- Writing memory does not change the block geometry. -/
theorem okAddr_memUpd (a : Arena) (p x : Nat) (v : Int) :
    okAddr (memUpd a p v) x = okAddr a x := rfl

/-- Moving the free-list head does not change the block geometry. -/
theorem okAddr_setFreeList (a : Arena) (p x : Nat) :
    okAddr (setFreeList a p) x = okAddr a x := rfl

/-- Reading back the word just written. -/
theorem memUpd_mem_self (a : Arena) (p : Nat) (v : Int) :
    (memUpd a p v).mem p = v := by simp [memUpd]

/-- Reading any other word is unchanged by a write. -/
theorem memUpd_mem_ne (a : Arena) (p : Nat) (v : Int) (q : Nat) (h : q ≠ p) :
    (memUpd a p v).mem q = a.mem q := by simp [memUpd, h]

/-- **C4.** The splitting rule of `splitBlock`, for a chosen free span at
`addr` (a three-word node fully inside the block, with size word
`blockSize`, prev word `prev` and next word `next`, its neighbours being
well-formed nodes) that fits the adjusted request `req`:
* if `blockSize − req < 4·word`, the whole span is returned at its own
  address with final size `blockSize`, and the span is unlinked — the
  neighbours' links (or the list head) are redirected around it;
* otherwise the span's size word is shrunk in place to `blockSize − req`,
  nothing else in the arena changes (the span stays on the free list at its
  original address), and the returned span starts at
  `addr + (blockSize − req)`, the span's size after the shrink. -/
theorem c4_splitBlock_spec (a : Arena) (addr : Nat) (req blockSize prev next : Int)
    (hlo : a.base ≤ addr) (hhi : addr + 24 ≤ a.base + a.poolSize)
    (hbs : a.mem addr = blockSize)
    (hprev : a.mem (addr + 8) = prev)
    (hnext : a.mem (addr + 16) = next)
    (hfit : req ≤ blockSize)
    (hpv : prev ≠ 0 → okAddr a (prev.toNat + 16) = true)
    (hnv : next ≠ 0 → okAddr a (next.toNat + 8) = true)
    (hsep : prev ≠ 0 → next ≠ 0 → prev.toNat + 16 ≠ next.toNat + 8) :
    (blockSize - req < 32 →
      ∃ a', splitBlock a addr req = Except.ok (addr, blockSize, a') ∧
        (prev = 0 → a'.freeList = next.toNat ∧
          (next ≠ 0 → a'.mem (next.toNat + 8) = 0)) ∧
        (prev ≠ 0 → a'.freeList = a.freeList ∧ a'.mem (prev.toNat + 16) = next ∧
          (next ≠ 0 → a'.mem (next.toNat + 8) = prev))) ∧
    (32 ≤ blockSize - req →
      ∃ a', splitBlock a addr req
          = Except.ok (addr + (blockSize - req).toNat, req, a') ∧
        a'.freeList = a.freeList ∧ a'.mem addr = blockSize - req ∧
        (∀ q, q ≠ addr → a'.mem q = a.mem q)) := by
  have hok0 : okAddr a addr = true := (okAddr_iff a addr).mpr ⟨hlo, by omega⟩
  have hok8 : okAddr a (addr + 8) = true := (okAddr_iff a _).mpr ⟨by omega, by omega⟩
  have hok16 : okAddr a (addr + 16) = true := (okAddr_iff a _).mpr ⟨by omega, by omega⟩
  have e1 : readW a addr = Except.ok blockSize := by
    rw [readW, if_pos hok0, hbs]
  have e2 : readW a (addr + 8) = Except.ok prev := by
    rw [readW, if_pos hok8, hprev]
  have e3 : readW a (addr + 16) = Except.ok next := by
    rw [readW, if_pos hok16, hnext]
  constructor
  · intro hlt
    have hsz : (if blockSize - req < 32 then blockSize else req) = blockSize := if_pos hlt
    by_cases hp : prev = 0
    · by_cases hn : next = 0
      · refine ⟨setFreeList a next.toNat, ?_,
          fun _ => ⟨rfl, fun hn' => absurd hn hn'⟩, fun hp' => absurd hp hp'⟩
        rw [splitBlock, e1]
        simp only [bind, Except.bind]
        rw [hsz, if_pos rfl, e2, e3]
        simp only [bind, Except.bind]
        rw [if_neg (by simpa using hp), if_neg (by simpa using hn)]
        rfl
      · have hokn : okAddr (setFreeList a next.toNat) (next.toNat + 8) = true := by
          rw [okAddr_setFreeList]
          exact hnv hn
        refine ⟨memUpd (setFreeList a next.toNat) (next.toNat + 8) 0, ?_,
          fun _ => ⟨rfl, fun _ => memUpd_mem_self _ _ _⟩, fun hp' => absurd hp hp'⟩
        rw [splitBlock, e1]
        simp only [bind, Except.bind]
        rw [hsz, if_pos rfl, e2, e3]
        simp only [bind, Except.bind]
        rw [if_neg (by simpa using hp), if_pos hn, writeW, if_pos hokn]
        simp only [bind, Except.bind]
        rfl
    · have hokp : okAddr a (prev.toNat + 16) = true := hpv hp
      by_cases hn : next = 0
      · refine ⟨memUpd a (prev.toNat + 16) next, ?_, fun hp' => absurd hp' hp,
          fun _ => ⟨rfl, memUpd_mem_self _ _ _, fun hn' => absurd hn hn'⟩⟩
        rw [splitBlock, e1]
        simp only [bind, Except.bind]
        rw [hsz, if_pos rfl, e2, e3]
        simp only [bind, Except.bind]
        rw [if_pos hp, writeW, if_pos hokp]
        simp only [bind, Except.bind]
        rw [if_neg (by simpa using hn)]
        rfl
      · have hokn2 : okAddr (memUpd a (prev.toNat + 16) next) (next.toNat + 8) = true := by
          rw [okAddr_memUpd]
          exact hnv hn
        refine ⟨memUpd (memUpd a (prev.toNat + 16) next) (next.toNat + 8) prev, ?_,
          fun hp' => absurd hp' hp, fun _ => ⟨rfl, ?_, fun _ => memUpd_mem_self _ _ _⟩⟩
        · rw [splitBlock, e1]
          simp only [bind, Except.bind]
          rw [hsz, if_pos rfl, e2, e3]
          simp only [bind, Except.bind]
          rw [if_pos hp, writeW, if_pos hokp]
          simp only [bind, Except.bind]
          rw [if_pos hn, writeW, if_pos hokn2]
          simp only [bind, Except.bind]
          rfl
        · rw [memUpd_mem_ne _ _ _ _ (hsep hp hn), memUpd_mem_self]
  · intro hge
    have hne : blockSize ≠ req := by omega
    have hsz : (if blockSize - req < 32 then blockSize else req) = req :=
      if_neg (by omega)
    have haddr : ((addr : Int) + (blockSize - req)).toNat
        = addr + (blockSize - req).toNat := by omega
    refine ⟨memUpd a addr (blockSize - req), ?_, rfl, memUpd_mem_self _ _ _,
      fun q hq => memUpd_mem_ne _ _ _ _ hq⟩
    rw [splitBlock, e1]
    simp only [bind, Except.bind]
    rw [hsz, if_neg hne, writeW, if_pos hok0]
    simp only [bind, Except.bind]
    rw [haddr]
    rfl

/-- Witness for C4: the whole-span case on `w4Arena` (span of size 40 at
1024, request 24, remainder 16 < 32, no neighbours). -/
theorem c4_splitBlock_spec_witness :
    w4Arena.base ≤ 1024 ∧ 1024 + 24 ≤ w4Arena.base + w4Arena.poolSize ∧
    w4Arena.mem 1024 = 40 ∧ w4Arena.mem 1032 = 0 ∧ w4Arena.mem 1040 = 0 ∧
    (24 : Int) ≤ 40 ∧
    ((40 : Int) - 24 < 32 →
      ∃ a', splitBlock w4Arena 1024 24 = Except.ok (1024, 40, a') ∧
        ((0 : Int) = 0 → a'.freeList = (0 : Int).toNat ∧
          ((0 : Int) ≠ 0 → a'.mem ((0 : Int).toNat + 8) = 0)) ∧
        ((0 : Int) ≠ 0 → a'.freeList = w4Arena.freeList ∧
          a'.mem ((0 : Int).toNat + 16) = 0 ∧
          ((0 : Int) ≠ 0 → a'.mem ((0 : Int).toNat + 8) = 0))) :=
  ⟨by decide, by decide, by decide, by decide, by decide, by decide,
   (c4_splitBlock_spec w4Arena 1024 24 40 0 0 (by decide) (by decide) (by decide)
     (by decide) (by decide) (by decide) (fun h => absurd rfl h)
     (fun h => absurd rfl h) (fun h _ => absurd rfl h)).1⟩

/-- `foldMax` over an appended list runs the two halves in sequence. -/
theorem foldMax_append (A : List Int) : ∀ (B : List Int) (m : Int),
    foldMax m (A ++ B) = (foldMax m A).bind (fun x => foldMax x B) := by
  induction A with
  | nil => intro B m; simp [foldMax]
  | cons x xs ih =>
    intro B m
    by_cases hm : m = -1
    · simp [foldMax, hm, ih]
    · by_cases hx : m = x
      · simp [foldMax, hm, hx, ih]
      · simp [foldMax, hm, hx]

/-- When the running maximum is already set (`≠ -1`), `foldMax` succeeds
exactly when every remaining element equals it. -/
theorem foldMax_isSome_iff (x : Int) (hx : x ≠ -1) : ∀ (xs : List Int),
    (foldMax x xs).isSome ↔ ∀ y ∈ xs, y = x := by
  intro xs
  induction xs with
  | nil => simp [foldMax]
  | cons y ys ih =>
    by_cases hy : x = y
    · subst hy
      simp [foldMax, hx, ih]
    · have hf : foldMax x (y :: ys) = none := by
        rw [foldMax, if_neg hx, if_neg hy]
      constructor
      · intro h
        rw [hf] at h
        simp at h
      · intro h
        exact absurd ((h y (List.mem_cons_self y ys)).symm) hy

/-- All the counts the checker records are at least the starting count. -/
theorem leafBlackCounts_ge (t : RBTree) : ∀ (bc : Int),
    ∀ x ∈ leafBlackCounts t bc, bc ≤ x := by
  induction t with
  | nil => intro bc x hx; simp [leafBlackCounts] at hx
  | node c k v l r ihl ihr =>
    intro bc x hx
    by_cases hleaf : l = RBTree.nil ∧ r = RBTree.nil
    · rw [leafBlackCounts, if_pos hleaf] at hx
      simp at hx
      subst hx
      split <;> omega
    · rw [leafBlackCounts, if_neg hleaf] at hx
      simp at hx
      rcases hx with hx | hx
      · have := ihl _ _ hx
        revert this
        split <;> omega
      · have := ihr _ _ hx
        revert this
        split <;> omega

/-- A cons list is pairwise-equal exactly when every tail element equals the
head. -/
theorem pairwise_eq_cons_iff (x : Int) (xs : List Int) :
    List.Pairwise (· = ·) (x :: xs) ↔ ∀ y ∈ xs, y = x := by
  rw [List.pairwise_cons]
  constructor
  · rintro ⟨h1, _⟩ y hy
    exact (h1 y hy).symm
  · intro h
    refine ⟨fun y hy => (h y hy).symm, ?_⟩
    exact List.pairwise_of_forall_mem_list fun a ha b hb => (h a ha).trans (h b hb).symm

/-- Bitwise or of the checker's two return codes: 0 (all bits clear) and
−1 (`TREEMAP_ERROR`, all bits set). -/
theorem lor_code_cases (a b : Int) (ha : a = 0 ∨ a = -1) (hb : b = 0 ∨ b = -1) :
    (Int.lor a b = 0 ∨ Int.lor a b = -1) ∧ (Int.lor a b = 0 ↔ a = 0 ∧ b = 0) := by
  have h1 : Int.lor 0 0 = 0 := by simp [Int.lor]
  have h2 : Int.lor 0 (-1) = -1 := by
    show Int.lor (Int.ofNat 0) (Int.negSucc 0) = Int.negSucc 0
    simp [Int.lor, Nat.ldiff]
  have h3 : Int.lor (-1) 0 = -1 := by
    show Int.lor (Int.negSucc 0) (Int.ofNat 0) = Int.negSucc 0
    simp [Int.lor, Nat.ldiff]
  have h4 : Int.lor (-1) (-1) = -1 := by
    show Int.lor (Int.negSucc 0) (Int.negSucc 0) = Int.negSucc 0
    simp [Int.lor]
  rcases ha with ha | ha <;> rcases hb with hb | hb <;> subst ha <;> subst hb <;>
    simp [h1, h2, h3, h4]

/-- `assert_rb_valid` characterized: its return value is 0 or −1; it is 0
exactly when the subtree has no red-red edge and the recorded leaf black
counts pass the `maxBlackCount` fold; and on success the fold yields the
returned `maxBlackCount`. -/
theorem assert_rb_valid_spec (t : RBTree) : ∀ (bc m : Int),
    ((assert_rb_valid t bc m).1 = 0 ∨ (assert_rb_valid t bc m).1 = -1) ∧
    ((assert_rb_valid t bc m).1 = 0 ↔
      (noRedRedSpec t = true ∧ (foldMax m (leafBlackCounts t bc)).isSome)) ∧
    ((assert_rb_valid t bc m).1 = 0 →
      foldMax m (leafBlackCounts t bc) = some (assert_rb_valid t bc m).2) := by
  induction t with
  | nil =>
    intro bc m
    simp [assert_rb_valid, leafBlackCounts, noRedRedSpec, foldMax]
  | node c k v l r ihl ihr =>
    intro bc m
    by_cases hrr : c = Color.red ∧ (isRedT l = true ∨ isRedT r = true)
    · rw [show assert_rb_valid (RBTree.node c k v l r) bc m = (TREEMAP_ERROR, m) by
        rw [assert_rb_valid, if_pos hrr]]
      have hnr : noRedRedSpec (RBTree.node c k v l r) = false := by
        simp [noRedRedSpec, hrr.1]
        rcases hrr.2 with h | h <;> simp [h]
      simp [TREEMAP_ERROR, hnr]
    · have hstep : assert_rb_valid (RBTree.node c k v l r) bc m =
          (let bc2 := if c = Color.red then bc else bc + 1
           if l = RBTree.nil ∧ r = RBTree.nil then
             if m = -1 then (0, bc2)
             else if m ≠ bc2 then (TREEMAP_ERROR, m) else (0, m)
           else
             let p1 := assert_rb_valid l bc2 m
             let p2 := assert_rb_valid r bc2 p1.2
             (Int.lor p1.1 p2.1, p2.2)) := by
        rw [assert_rb_valid, if_neg hrr]
      have hcounts : leafBlackCounts (RBTree.node c k v l r) bc =
          (let bc2 := if c = Color.red then bc else bc + 1
           if l = RBTree.nil ∧ r = RBTree.nil then [bc2]
           else leafBlackCounts l bc2 ++ leafBlackCounts r bc2) := by
        rw [leafBlackCounts]
      have hnr : noRedRedSpec (RBTree.node c k v l r)
          = (noRedRedSpec l && noRedRedSpec r) := by
        simp only [noRedRedSpec]
        rcases Classical.em (c = Color.red) with hc | hc
        · have : isRedT l = false ∧ isRedT r = false := by
            constructor
            · cases hl : isRedT l
              · rfl
              · exact absurd ⟨hc, Or.inl hl⟩ hrr
            · cases hr' : isRedT r
              · rfl
              · exact absurd ⟨hc, Or.inr hr'⟩ hrr
          simp [this.1, this.2]
        · simp [hc]
      simp only [hstep, hcounts, hnr]
      by_cases hleaf : l = RBTree.nil ∧ r = RBTree.nil
      · have hnrl : noRedRedSpec l = true := by rw [hleaf.1]; rfl
        have hnrr2 : noRedRedSpec r = true := by rw [hleaf.2]; rfl
        simp only [if_pos hleaf, hnrl, hnrr2]
        by_cases hm : m = -1
        · simp [hm, foldMax]
        · by_cases hmb : m = (if c = Color.red then bc else bc + 1)
          · simp [hm, hmb, foldMax]
          · simp [hm, hmb, foldMax, TREEMAP_ERROR]
      · simp only [if_neg hleaf]
        obtain ⟨hl1, hl2, hl3⟩ := ihl (if c = Color.red then bc else bc + 1) m
        obtain ⟨hr1, hr2, hr3⟩ :=
          ihr (if c = Color.red then bc else bc + 1)
            (assert_rb_valid l (if c = Color.red then bc else bc + 1) m).2
        rw [foldMax_append]
        have hlor := lor_code_cases _ _ hl1 hr1
        constructor
        · exact hlor.1
        constructor
        · constructor
          · intro hz
            obtain ⟨hz1, hz2⟩ := hlor.2.mp hz
            obtain ⟨ha, hb⟩ := hl2.mp hz1
            obtain ⟨hc2, hd⟩ := hr2.mp hz2
            rw [hl3 hz1]
            simp [ha, hc2]
            exact hd
          · rintro ⟨hnn, hfs⟩
            have hnl : noRedRedSpec l = true := by
              rcases Bool.and_eq_true .. |>.mp hnn with ⟨h1, _⟩
              exact h1
            have hnr2 : noRedRedSpec r = true := by
              rcases Bool.and_eq_true .. |>.mp hnn with ⟨_, h2⟩
              exact h2
            cases hfl : foldMax m
                (leafBlackCounts l (if c = Color.red then bc else bc + 1)) with
            | none => rw [hfl] at hfs; simp at hfs
            | some x =>
              rw [hfl] at hfs
              simp at hfs
              have hz1 : (assert_rb_valid l (if c = Color.red then bc else bc + 1) m).1
                  = 0 := hl2.mpr ⟨hnl, by rw [hfl]; rfl⟩
              have hx : x = (assert_rb_valid l (if c = Color.red then bc else bc + 1) m).2 := by
                have := hl3 hz1
                rw [hfl] at this
                exact Option.some.inj this
              have hz2 : (assert_rb_valid r (if c = Color.red then bc else bc + 1)
                  (assert_rb_valid l (if c = Color.red then bc else bc + 1) m).2).1 = 0 :=
                hr2.mpr ⟨hnr2, by rw [← hx]; exact hfs⟩
              exact hlor.2.mpr ⟨hz1, hz2⟩
        · intro hz
          obtain ⟨hz1, hz2⟩ := hlor.2.mp hz
          rw [hl3 hz1]
          simpa using hr3 hz2

/-- **C8, counterexample.** The claim requires failure for every invariant
violation, but the checker never looks at the root colour: the single red
root passes the check while violating invariant (a); it also never compares
keys, and measures black depth only at nodes with two `NULL` children. -/
theorem c8_checker_counterexample :
    lpx_treemap_check_rb_conflicts (RBTree.node Color.red 1 1 RBTree.nil RBTree.nil)
      = TREEMAP_SUCCESS ∧
    specRBValid (RBTree.node Color.red 1 1 RBTree.nil RBTree.nil) = false :=
  ⟨by decide, by decide⟩

/-- **C8, amended.** `lpx_treemap_check_rb_conflicts` returns success iff no
red node has a red child and the black counts it records at nodes with two
`NULL` children are all equal. (Root colour, in-order key ordering, and
black depths of root-to-`NULL` paths through nodes with a single `NULL`
child are not examined.) -/
theorem c8_checker_amended (t : RBTree) :
    lpx_treemap_check_rb_conflicts t = TREEMAP_SUCCESS ↔
      (noRedRedSpec t = true ∧ List.Pairwise (· = ·) (leafBlackCounts t 0)) := by
  cases t with
  | nil =>
    simp [lpx_treemap_check_rb_conflicts, noRedRedSpec, leafBlackCounts,
      TREEMAP_SUCCESS]
  | node c k v l r =>
    have h := (assert_rb_valid_spec (RBTree.node c k v l r) 0 (-1)).2.1
    have hred : lpx_treemap_check_rb_conflicts (RBTree.node c k v l r)
        = (assert_rb_valid (RBTree.node c k v l r) 0 (-1)).1 := rfl
    rw [hred, TREEMAP_SUCCESS, h]
    constructor
    · rintro ⟨h1, h2⟩
      refine ⟨h1, ?_⟩
      cases hL : leafBlackCounts (RBTree.node c k v l r) 0 with
      | nil => exact List.Pairwise.nil
      | cons x xs =>
        rw [hL] at h2
        have hx : (0 : Int) ≤ x := leafBlackCounts_ge _ 0 x (by rw [hL]; simp)
        rw [show foldMax (-1) (x :: xs) = foldMax x xs from by simp [foldMax]] at h2
        rw [pairwise_eq_cons_iff]
        exact (foldMax_isSome_iff x (by omega) xs).mp h2
    · rintro ⟨h1, h2⟩
      refine ⟨h1, ?_⟩
      cases hL : leafBlackCounts (RBTree.node c k v l r) 0 with
      | nil => simp [foldMax]
      | cons x xs =>
        rw [hL] at h2
        have hx : (0 : Int) ≤ x := leafBlackCounts_ge _ 0 x (by rw [hL]; simp)
        rw [show foldMax (-1) (x :: xs) = foldMax x xs from by simp [foldMax]]
        exact (foldMax_isSome_iff x (by omega) xs).mpr ((pairwise_eq_cons_iff x xs).mp h2)

/-- **C3.** A submission to an elastic pool `(min, max) = (0, 1)` during
which the worker-record allocation fails returns failure (`NULL` future) but
leaves the pool's availability semaphore decremented from 1 to 0: the failed
path frees the work item and the future but never restores `threadCounter`
(threadPool.c:221-226), so the pool state differs from the state before the
call. -/
theorem c3_failed_execute_changes_pool :
    c3Pool0 = some ⟨0, 1, 0, [], [THREAD_UNINITIALIZED], ⟨1, true⟩⟩ ∧
    c3Run = some (none, ⟨0, 1, 0, [], [THREAD_UNINITIALIZED], ⟨0, true⟩⟩) ∧
    (⟨0, 1, 0, [], [THREAD_UNINITIALIZED], ⟨0, true⟩⟩ : TPool)
      ≠ ⟨0, 1, 0, [], [THREAD_UNINITIALIZED], ⟨1, true⟩⟩ :=
  ⟨by decide, by decide, by decide⟩

end LPX
